import Mathlib

/-!
Verification of the SHA3-256 implementation in `sha3.go`.

The Go program works on a 5×5 matrix of 64-bit lanes (`type state struct { a [5][5]uint64 }`).
We embed each lane as a `Nat` together with explicit reduction modulo `2 ^ 64`
wherever the Go `uint64` arithmetic wraps.  Every definition below mirrors one
function of the source file; constant-bound `for` loops are either unrolled or
written as folds over `List.range`, and the `for outIndex < 32` squeeze loop is
given explicit fuel.
-/

/-- The 5×5 Keccak state: field `aXY` is the Go lane `s.a[X][Y]`. -/
structure KState where
  a00 : Nat
  a01 : Nat
  a02 : Nat
  a03 : Nat
  a04 : Nat
  a10 : Nat
  a11 : Nat
  a12 : Nat
  a13 : Nat
  a14 : Nat
  a20 : Nat
  a21 : Nat
  a22 : Nat
  a23 : Nat
  a24 : Nat
  a30 : Nat
  a31 : Nat
  a32 : Nat
  a33 : Nat
  a34 : Nat
  a40 : Nat
  a41 : Nat
  a42 : Nat
  a43 : Nat
  a44 : Nat
  deriving DecidableEq, Repr

/-- Reading `s.a[x][y]`; out-of-range indices (never used by the program) give 0. -/
def KState.get (s : KState) (x y : Nat) : Nat :=
  match x, y with
  | 0, 0 => s.a00
  | 0, 1 => s.a01
  | 0, 2 => s.a02
  | 0, 3 => s.a03
  | 0, 4 => s.a04
  | 1, 0 => s.a10
  | 1, 1 => s.a11
  | 1, 2 => s.a12
  | 1, 3 => s.a13
  | 1, 4 => s.a14
  | 2, 0 => s.a20
  | 2, 1 => s.a21
  | 2, 2 => s.a22
  | 2, 3 => s.a23
  | 2, 4 => s.a24
  | 3, 0 => s.a30
  | 3, 1 => s.a31
  | 3, 2 => s.a32
  | 3, 3 => s.a33
  | 3, 4 => s.a34
  | 4, 0 => s.a40
  | 4, 1 => s.a41
  | 4, 2 => s.a42
  | 4, 3 => s.a43
  | 4, 4 => s.a44
  | _, _ => 0

/-- Writing `s.a[x][y] = v`; out-of-range indices leave the state unchanged. -/
def KState.set (s : KState) (x y v : Nat) : KState :=
  match x, y with
  | 0, 0 => { s with a00 := v }
  | 0, 1 => { s with a01 := v }
  | 0, 2 => { s with a02 := v }
  | 0, 3 => { s with a03 := v }
  | 0, 4 => { s with a04 := v }
  | 1, 0 => { s with a10 := v }
  | 1, 1 => { s with a11 := v }
  | 1, 2 => { s with a12 := v }
  | 1, 3 => { s with a13 := v }
  | 1, 4 => { s with a14 := v }
  | 2, 0 => { s with a20 := v }
  | 2, 1 => { s with a21 := v }
  | 2, 2 => { s with a22 := v }
  | 2, 3 => { s with a23 := v }
  | 2, 4 => { s with a24 := v }
  | 3, 0 => { s with a30 := v }
  | 3, 1 => { s with a31 := v }
  | 3, 2 => { s with a32 := v }
  | 3, 3 => { s with a33 := v }
  | 3, 4 => { s with a34 := v }
  | 4, 0 => { s with a40 := v }
  | 4, 1 => { s with a41 := v }
  | 4, 2 => { s with a42 := v }
  | 4, 3 => { s with a43 := v }
  | 4, 4 => { s with a44 := v }
  | _, _ => s

/-- The all-zero state created by `s := new(state)`. -/
def state0 : KState :=
  ⟨0, 0, 0, 0, 0, 0, 0, 0, 0, 0, 0, 0, 0, 0, 0, 0, 0, 0, 0, 0, 0, 0, 0, 0, 0⟩

/-- The round-constant table `RC` of the source, its 24 `uint64` hex literals
written here in decimal (e.g. the third entry is 0x800000000000808A). -/
def RC : List Nat :=
  [1, 32898,
   9223372036854808714, 9223372039002292224,
   32907, 2147483649,
   9223372039002292353, 9223372036854808585,
   138, 136,
   2147516425, 2147483658,
   2147516555, 9223372036854775947,
   9223372036854808713, 9223372036854808579,
   9223372036854808578, 9223372036854775936,
   32778, 9223372039002259466,
   9223372039002292353, 9223372036854808704,
   2147483649, 9223372039002292232]

/-- The rotation-offset table `r` of the source (row `x`, column `y`). -/
def r : List (List Nat) :=
  [[0, 36, 3, 41, 18],
   [1, 44, 10, 45, 2],
   [62, 6, 43, 15, 61],
   [28, 55, 25, 21, 56],
   [27, 20, 39, 8, 14]]

/-- `rotl64(x, y) = (x << y) | (x >> (64-y))` on `uint64`: the left shift wraps
modulo `2 ^ 64`, and a Go shift by 64 (the `y = 0` case) yields 0, which the
`Nat` right shift reproduces for `x < 2 ^ 64`. -/
def rotl64 (x y : Nat) : Nat :=
  ((x <<< y) % 2 ^ 64) ||| (x >>> (64 - y))

/-- Go `^b` on `uint64`: bitwise complement, i.e. XOR with all 64 ones. -/
def not64 (x : Nat) : Nat :=
  x ^^^ (2 ^ 64 - 1)

/-- The θ step, the two `for x` loops of the source unrolled: column parities
`c`, then `d[x] = c[(x+4)%5] ^ rotl64(c[(x+1)%5], 1)` XORed into column `x`. -/
def theta (s : KState) : KState :=
  let c0 := s.a00 ^^^ s.a01 ^^^ s.a02 ^^^ s.a03 ^^^ s.a04
  let c1 := s.a10 ^^^ s.a11 ^^^ s.a12 ^^^ s.a13 ^^^ s.a14
  let c2 := s.a20 ^^^ s.a21 ^^^ s.a22 ^^^ s.a23 ^^^ s.a24
  let c3 := s.a30 ^^^ s.a31 ^^^ s.a32 ^^^ s.a33 ^^^ s.a34
  let c4 := s.a40 ^^^ s.a41 ^^^ s.a42 ^^^ s.a43 ^^^ s.a44
  let d0 := c4 ^^^ rotl64 c1 1
  let d1 := c0 ^^^ rotl64 c2 1
  let d2 := c1 ^^^ rotl64 c3 1
  let d3 := c2 ^^^ rotl64 c4 1
  let d4 := c3 ^^^ rotl64 c0 1
  ⟨s.a00 ^^^ d0, s.a01 ^^^ d0, s.a02 ^^^ d0, s.a03 ^^^ d0, s.a04 ^^^ d0,
   s.a10 ^^^ d1, s.a11 ^^^ d1, s.a12 ^^^ d1, s.a13 ^^^ d1, s.a14 ^^^ d1,
   s.a20 ^^^ d2, s.a21 ^^^ d2, s.a22 ^^^ d2, s.a23 ^^^ d2, s.a24 ^^^ d2,
   s.a30 ^^^ d3, s.a31 ^^^ d3, s.a32 ^^^ d3, s.a33 ^^^ d3, s.a34 ^^^ d3,
   s.a40 ^^^ d4, s.a41 ^^^ d4, s.a42 ^^^ d4, s.a43 ^^^ d4, s.a44 ^^^ d4⟩

/-- The source's `rhoPi`, its double loop unrolled.  The loop visits the lanes
in row-major order `(0,0), (0,1), …, (4,4)` carrying a single `temp` seeded
with `a[1][0]`; each lane is overwritten by the rotation (by `r[x][y]`) of the
lane saved in `temp`, i.e. of the row-major predecessor's ORIGINAL value, so
every right-hand side below reads the pre-step state. -/
def rhoPi (s : KState) : KState :=
  ⟨rotl64 s.a10 0,
   rotl64 s.a00 36, rotl64 s.a01 3, rotl64 s.a02 41, rotl64 s.a03 18,
   rotl64 s.a04 1, rotl64 s.a10 44, rotl64 s.a11 10, rotl64 s.a12 45, rotl64 s.a13 2,
   rotl64 s.a14 62, rotl64 s.a20 6, rotl64 s.a21 43, rotl64 s.a22 15, rotl64 s.a23 61,
   rotl64 s.a24 28, rotl64 s.a30 55, rotl64 s.a31 25, rotl64 s.a32 21, rotl64 s.a33 56,
   rotl64 s.a34 27, rotl64 s.a40 20, rotl64 s.a41 39, rotl64 s.a42 8, rotl64 s.a43 14⟩

/-- The χ step: the source snapshots the whole state into `b`, then sets
`a[x][y] = b[x][y] ^ ((^b[(x+1)%5][y]) & b[(x+2)%5][y])`; unrolled, with every
operand read from the snapshot (the original `s`). -/
def chi (s : KState) : KState :=
  ⟨s.a00 ^^^ (not64 s.a10 &&& s.a20), s.a01 ^^^ (not64 s.a11 &&& s.a21),
   s.a02 ^^^ (not64 s.a12 &&& s.a22), s.a03 ^^^ (not64 s.a13 &&& s.a23),
   s.a04 ^^^ (not64 s.a14 &&& s.a24),
   s.a10 ^^^ (not64 s.a20 &&& s.a30), s.a11 ^^^ (not64 s.a21 &&& s.a31),
   s.a12 ^^^ (not64 s.a22 &&& s.a32), s.a13 ^^^ (not64 s.a23 &&& s.a33),
   s.a14 ^^^ (not64 s.a24 &&& s.a34),
   s.a20 ^^^ (not64 s.a30 &&& s.a40), s.a21 ^^^ (not64 s.a31 &&& s.a41),
   s.a22 ^^^ (not64 s.a32 &&& s.a42), s.a23 ^^^ (not64 s.a33 &&& s.a43),
   s.a24 ^^^ (not64 s.a34 &&& s.a44),
   s.a30 ^^^ (not64 s.a40 &&& s.a00), s.a31 ^^^ (not64 s.a41 &&& s.a01),
   s.a32 ^^^ (not64 s.a42 &&& s.a02), s.a33 ^^^ (not64 s.a43 &&& s.a03),
   s.a34 ^^^ (not64 s.a44 &&& s.a04),
   s.a40 ^^^ (not64 s.a00 &&& s.a10), s.a41 ^^^ (not64 s.a01 &&& s.a11),
   s.a42 ^^^ (not64 s.a02 &&& s.a12), s.a43 ^^^ (not64 s.a03 &&& s.a13),
   s.a44 ^^^ (not64 s.a04 &&& s.a14)⟩

/-- The ι step: `s.a[0][0] ^= RC[round]`. -/
def iota (s : KState) (round : Nat) : KState :=
  { s with a00 := s.a00 ^^^ RC.getD round 0 }

/-- `keccakF1600`: `for i := 0; i < 24; i++ { theta; rhoPi; chi; iota(i) }`. -/
def keccakF1600 (s : KState) : KState :=
  (List.range 24).foldl (fun t i => iota (chi (rhoPi (theta t))) i) s

/-- The source's `pad`: bytes are `Nat`s below 256, `rate` is in bits. -/
def pad (message : List Nat) (rate : Nat) : List Nat :=
  let remaining := rate - (message.length * 8) % rate
  let remaining := if remaining = 0 then rate else remaining
  let padLen := (remaining + 7) / 8
  let padding := List.replicate padLen 0
  let padding := padding.set 0 0x06
  let padding := padding.set (padding.length - 1) (padding.getD (padding.length - 1) 0 ||| 0x80)
  message ++ padding

/-- One absorbed byte of the inner block loop: `j` is the offset inside the
block, `b` the message byte; `wordIndex := j / 8`, XOR `b << ((j % 8) * 8)`
into `a[wordIndex % 5][wordIndex / 5]`. -/
def xorByte (s : KState) (j b : Nat) : KState :=
  let wordIndex := j / 8
  KState.set s (wordIndex % 5) (wordIndex / 5)
    (KState.get s (wordIndex % 5) (wordIndex / 5) ^^^ (b <<< ((j % 8) * 8)))

/-- The inner `for j := 0; j < RATE/8; j++` loop of `sha3_256` at block
offset `i`, with the source's bounds check `i + j < len(paddedMsg)`. -/
def xorBlockAt (p : List Nat) (i : Nat) (s : KState) : KState :=
  (List.range 136).foldl
    (fun t j => if i + j < p.length then xorByte t j (p.getD (i + j) 0) else t) s

/-- The outer absorb loop `for i := 0; i < len(paddedMsg); i += RATE/8`:
`n` counts the remaining iterations, `i` is the current byte offset; each
iteration XORs one block and then runs `keccakF1600` once. -/
def absorbAux (p : List Nat) : Nat → Nat → KState → KState
  | _, 0, s => s
  | i, n + 1, s => absorbAux p (i + 136) n (keccakF1600 (xorBlockAt p i s))

/-- The inner squeeze loop `for i := 0; i < 8 && outIndex < 32; i++`: the bytes
of `word`, least significant first, as many as fit before `outIndex` hits 32. -/
def laneBytes (word outIndex : Nat) : List Nat :=
  (List.range (min 8 (32 - outIndex))).map (fun i => (word >>> (i * 8)) % 256)

/-- The outer squeeze loop `for outIndex < 32`, with explicit fuel (the source
loop adds at least one byte per iteration, so fuel 32 is enough): read the lane
at `(wordIndex % 5, wordIndex / 5)`, emit its bytes, move to the next lane. -/
def squeezeAux (s : KState) : Nat → Nat → Nat → List Nat
  | _, _, 0 => []
  | wordIndex, outIndex, fuel + 1 =>
    if 32 ≤ outIndex then []
    else
      let word := KState.get s (wordIndex % 5) (wordIndex / 5)
      let bs := laneBytes word outIndex
      bs ++ squeezeAux s (wordIndex + 1) (outIndex + bs.length) fuel

/-- The source's `sha3_256`: pad to the 1088-bit rate, absorb block by block
(the outer loop runs `⌈len/136⌉` times), then squeeze 32 bytes. -/
def sha3_256 (message : List Nat) : List Nat :=
  let paddedMsg := pad message 1088
  let s := absorbAux paddedMsg 0 ((paddedMsg.length + 135) / 136) state0
  squeezeAux s 0 0 32

/-!
Specification-side definitions.  These follow the wording of the spec (FIPS-202
structure), to be compared with the definitions above that embed the source.
-/

/-- The standard ρ∘π step as the spec words it: the lane at `(x, y)` is
left-rotated by `r[x][y]` and moved to `(y, (2x+3y) mod 5)`; built by writing
each rotated lane of the pre-step state into a fresh state. -/
def rhoPiStd (s : KState) : KState :=
  (List.range 5).foldl
    (fun t x =>
      (List.range 5).foldl
        (fun u y =>
          KState.set u y ((2 * x + 3 * y) % 5)
            (rotl64 (KState.get s x y) ((r.getD x []).getD y 0))) t)
    state0

/-- Column parity `C[x]`: XOR of the five lanes `A[x][0..4]`. -/
def thetaC (s : KState) (x : Nat) : Nat :=
  KState.get s x 0 ^^^ KState.get s x 1 ^^^ KState.get s x 2 ^^^
    KState.get s x 3 ^^^ KState.get s x 4

/-- The padding length in bytes for a message of `n` bytes, as the spec words
it: `remaining = 1088 − (8·n mod 1088)`, replaced by 1088 when 0, then
`padLen = ⌈remaining/8⌉`. -/
def padLenOf (n : Nat) : Nat :=
  ((if 1088 - (8 * n) % 1088 = 0 then 1088 else 1088 - (8 * n) % 1088) + 7) / 8

/-- The padding buffer as the spec words it: first byte `0x06`, last byte with
`0x80` OR-ed in, zeros in between; one single byte `0x86` when `padLen = 1`. -/
def padBufSpec (padLen : Nat) : List Nat :=
  if padLen = 1 then [0x86]
  else 0x06 :: (List.replicate (padLen - 2) 0 ++ [0x80])

/-- Absorbing one full 136-byte block, as the spec words it: for each offset
`j` in the block, XOR `byte << (8·(j mod 8))` into the lane at
`((j/8) mod 5, (j/8) div 5)`; no bounds check, the block being full. -/
def xorBlockFull (block : List Nat) (s : KState) : KState :=
  (List.range 136).foldl
    (fun t j =>
      KState.set t ((j / 8) % 5) ((j / 8) / 5)
        (KState.get t ((j / 8) % 5) ((j / 8) / 5) ^^^ (block.getD j 0 <<< (8 * (j % 8))))) s

/-- The first `n` consecutive 136-byte chunks of a byte list. -/
def chunks136 : List Nat → Nat → List (List Nat)
  | _, 0 => []
  | q, n + 1 => q.take 136 :: chunks136 (q.drop 136) n

/-- The sponge absorption as the spec words it: fold over the consecutive full
blocks, XORing each block in and running the permutation exactly once after it. -/
def absorbSpec (blocks : List (List Nat)) (s : KState) : KState :=
  blocks.foldl (fun t b => keccakF1600 (xorBlockFull b t)) s

/-- The squeeze as the spec words it: byte `k` of the digest comes from the
lane at `(⌊k/8⌋ mod 5, ⌊k/8⌋ div 5)` of the post-absorption state, shifted
down by `8·(k mod 8)`; 32 bytes in total. -/
def squeezeSpec (s : KState) : List Nat :=
  (List.range 32).map
    (fun k => (KState.get s ((k / 8) % 5) ((k / 8) / 5) >>> (8 * (k % 8))) % 256)

/-!
Theorems settling the claims.
-/

/-- C6: for every state and every column `x`, `theta` XORs
`D[x] = C[(x+4) mod 5] ^^^ rotl64 (C[(x+1) mod 5]) 1` into every lane of
column `x`, all five parities `C` being taken from the pre-step state. -/
theorem theta_spec_conformance (s : KState) (x y : Fin 5) :
    KState.get (theta s) x.val y.val =
      KState.get s x.val y.val ^^^
        (thetaC s ((x.val + 4) % 5) ^^^ rotl64 (thetaC s ((x.val + 1) % 5)) 1) := by
  fin_cases x <;> fin_cases y <;> rfl

/-- C7: for every state, `chi` maps each lane to
`A[x][y] ^^^ ((NOT A[(x+1) mod 5][y]) AND A[(x+2) mod 5][y])`, every operand
read from the pre-step state `s` (the snapshot), never from an updated lane. -/
theorem chi_spec_conformance (s : KState) (x y : Fin 5) :
    KState.get (chi s) x.val y.val =
      KState.get s x.val y.val ^^^
        (not64 (KState.get s ((x.val + 1) % 5) y.val) &&&
          KState.get s ((x.val + 2) % 5) y.val) := by
  fin_cases x <;> fin_cases y <;> rfl

/-- C8: for every state and round index `i < 24`, `iota` XORs `RC[i]` into the
lane at `(0,0)` and leaves each of the other 24 lanes unchanged. -/
theorem iota_frame_effect (s : KState) (i : Fin 24) :
    KState.get (iota s i.val) 0 0 = KState.get s 0 0 ^^^ RC.getD i.val 0
    ∧ ∀ x y : Fin 5, ¬(x.val = 0 ∧ y.val = 0) →
        KState.get (iota s i.val) x.val y.val = KState.get s x.val y.val := by
  refine ⟨rfl, ?_⟩
  intro x y h
  fin_cases x <;> fin_cases y <;>
    first
      | rfl
      | exact absurd (by constructor <;> rfl) h

/-- C8 witness: the frame part of `iota_frame_effect` instantiated at the
all-zero state, round 0 and lane `(1,0)`. -/
theorem iota_frame_effect_inst :
    KState.get (iota state0 (0 : Fin 24).val) 1 0 = KState.get state0 1 0 :=
  (iota_frame_effect state0 0).2 1 0 (by decide)

/-- C9: `keccakF1600` applies exactly 24 rounds unconditionally, each round
being `theta`, then `rhoPi`, then `chi`, then `iota`, with the round-constant
index running up from 0 to 23; being a plain composition, it has no failure or
early-exit path. -/
theorem keccakF1600_round_structure (s : KState) :
    keccakF1600 s =
      iota (chi (rhoPi (theta (iota (chi (rhoPi (theta (iota (chi (rhoPi (theta (iota (chi (rhoPi (theta
      (iota (chi (rhoPi (theta (iota (chi (rhoPi (theta (iota (chi (rhoPi (theta (iota (chi (rhoPi (theta
      (iota (chi (rhoPi (theta (iota (chi (rhoPi (theta (iota (chi (rhoPi (theta (iota (chi (rhoPi (theta
      (iota (chi (rhoPi (theta (iota (chi (rhoPi (theta (iota (chi (rhoPi (theta (iota (chi (rhoPi (theta
      (iota (chi (rhoPi (theta (iota (chi (rhoPi (theta (iota (chi (rhoPi (theta (iota (chi (rhoPi (theta
      (iota (chi (rhoPi (theta (iota (chi (rhoPi (theta (iota (chi (rhoPi (theta (iota (chi (rhoPi (theta
      (s)))) 0)))) 1)))) 2)))) 3)))) 4)))) 5)))) 6)))) 7)))) 8)))) 9)))) 10)))) 11)))) 12)))) 13))))
      14)))) 15)))) 16)))) 17)))) 18)))) 19)))) 20)))) 21)))) 22)))) 23 := by
  rfl

/-- C10: `rotl64` is a genuine left rotation on 64-bit values: `rotl64 x 0 = x`
(despite the right shift by 64 this involves), the result stays below `2 ^ 64`,
bit `i` of `rotl64 x y` is bit `(i + (64 - y)) mod 64` of `x` for every shift
`y < 64`, and the rotation-offset table assigns amount 0 to lane `(0,0)`. -/
theorem rotl64_rotation_correct (x y : Nat) (hx : x < 2 ^ 64) (hy : y < 64) :
    rotl64 x 0 = x
    ∧ rotl64 x y < 2 ^ 64
    ∧ (∀ i, i < 64 → (rotl64 x y).testBit i = x.testBit ((i + (64 - y)) % 64))
    ∧ (r.getD 0 []).getD 0 1 = 0 := by
  refine ⟨?_, ?_, ?_, by decide⟩
  · unfold rotl64
    rw [Nat.shiftLeft_zero, Nat.mod_eq_of_lt hx, Nat.sub_zero,
      Nat.shiftRight_eq_div_pow, Nat.div_eq_of_lt hx, Nat.or_zero]
  · unfold rotl64
    apply Nat.or_lt_two_pow
    · exact Nat.mod_lt _ (by norm_num)
    · rw [Nat.shiftRight_eq_div_pow]
      exact lt_of_le_of_lt (Nat.div_le_self _ _) hx
  · intro i hi
    unfold rotl64
    rw [Nat.testBit_lor, Nat.testBit_mod_two_pow, Nat.testBit_shiftLeft,
      Nat.testBit_shiftRight]
    by_cases hiy : i < y
    · have h1 : ¬ i ≥ y := by omega
      have h2 : (i + (64 - y)) % 64 = 64 - y + i := by omega
      simp [h1, hi, h2]
    · have h1 : i ≥ y := by omega
      have h2 : (i + (64 - y)) % 64 = i - y := by omega
      have h3 : x.testBit (64 - y + i) = false :=
        Nat.testBit_lt_two_pow
          (lt_of_lt_of_le hx (Nat.pow_le_pow_right (by norm_num) (by omega)))
      simp [h1, hi, h2, h3]

/-- C10 witness: `rotl64_rotation_correct` instantiated at `x = 5`, `y = 1`,
with the bit characterization read off at bit 3. -/
theorem rotl64_rotation_correct_inst :
    rotl64 5 0 = 5 ∧ (rotl64 5 1).testBit 3 = Nat.testBit 5 ((3 + (64 - 1)) % 64) :=
  ⟨(rotl64_rotation_correct 5 1 (by decide) (by decide)).1,
   (rotl64_rotation_correct 5 1 (by decide) (by decide)).2.2.1 3 (by decide)⟩

/-- C2: FALSIFIED.  On the state whose only nonzero lane is `a[1][0] = 1`, the
source's `rhoPi` (row-major single-`temp` traversal) puts 1 into lane `(0,0)`
and `2 ^ 44` into lane `(1,1)` and leaves `(0,2)` zero, whereas the standard
ρ∘π composition leaves `(0,0)` zero and puts `rotl64 1 1 = 2` into `(0,2)`:
the two steps disagree, bit for bit, on this state. -/
theorem rhoPi_differs_from_standard_rho_pi :
    rhoPi { state0 with a10 := 1 } ≠ rhoPiStd { state0 with a10 := 1 }
    ∧ (rhoPi { state0 with a10 := 1 }).a00 = 1
    ∧ (rhoPi { state0 with a10 := 1 }).a11 = 2 ^ 44
    ∧ (rhoPi { state0 with a10 := 1 }).a02 = 0
    ∧ (rhoPiStd { state0 with a10 := 1 }).a00 = 0
    ∧ (rhoPiStd { state0 with a10 := 1 }).a02 = 2 := by
  exact ⟨by decide, by decide, by decide, by decide, by decide, by decide⟩

set_option maxRecDepth 100000 in
/-- C1: FALSIFIED.  The program's `sha3_256` applied to the bytes of `"abc"`
returns the 32 bytes rendered `b88996b7…f303`, not the FIPS-202 SHA3-256 test
vector `3a985da7…1532` (the `rhoPi` slip propagates to the digest). -/
theorem sha3_256_abc_not_fips_vector :
    sha3_256 [0x61, 0x62, 0x63] =
      [0xb8, 0x89, 0x96, 0xb7, 0xe3, 0xb5, 0x05, 0x7a, 0xb9, 0xd6, 0x89, 0x1f,
       0x11, 0xec, 0xc3, 0x21, 0xc1, 0x01, 0x00, 0x55, 0x69, 0xd5, 0xe4, 0x6c,
       0xb3, 0x80, 0x0f, 0x5e, 0x30, 0x26, 0xf3, 0x03]
    ∧ sha3_256 [0x61, 0x62, 0x63] ≠
      [0x3a, 0x98, 0x5d, 0xa7, 0x4f, 0xe2, 0x25, 0xb2, 0x04, 0x5c, 0x17, 0x2d,
       0x6b, 0xd3, 0x90, 0xbd, 0x85, 0x5f, 0x08, 0x6e, 0x3e, 0x9d, 0x52, 0x5b,
       0x46, 0xbf, 0xe2, 0x45, 0x11, 0x43, 0x15, 0x32] := by
  exact ⟨by decide, by decide⟩

/-- Setting the last entry of an all-zero replicate list to 128. -/
lemma replicate_set_last (k : Nat) :
    (List.replicate (k + 1) (0 : Nat)).set k 128 = List.replicate k 0 ++ [128] := by
  induction k with
  | zero => rfl
  | succ n ih =>
    rw [List.replicate_succ]
    show 0 :: (List.replicate (n + 1) 0).set n 128 = List.replicate (n + 1) 0 ++ [128]
    rw [ih, List.replicate_succ, List.cons_append]

/-- The buffer built by `pad` (zeros, then `0x06` at the front, then `0x80`
OR-ed into the last byte) is exactly the spec-side `padBufSpec`. -/
lemma pad_buffer_eq (k : Nat) (hk : 1 ≤ k) :
    ((List.replicate k (0 : Nat)).set 0 6).set
        (((List.replicate k (0 : Nat)).set 0 6).length - 1)
        (((List.replicate k (0 : Nat)).set 0 6).getD
          (((List.replicate k (0 : Nat)).set 0 6).length - 1) 0 ||| 128)
      = padBufSpec k := by
  match k, hk with
  | 1, _ => rfl
  | n + 2, _ =>
    have h1 : (List.replicate (n + 2) (0 : Nat)).set 0 6 = 6 :: List.replicate (n + 1) 0 := by
      simp [List.replicate_succ]
    rw [h1]
    have h2 : (6 :: List.replicate (n + 1) (0 : Nat)).length - 1 = n + 1 := by simp
    rw [h2]
    have h3 : (6 :: List.replicate (n + 1) (0 : Nat)).getD (n + 1) 0 = 0 := by
      simp [List.getD_eq_getElem?_getD, List.getElem?_replicate]
    rw [h3]
    show 6 :: (List.replicate (n + 1) (0 : Nat)).set n (0 ||| 128) = padBufSpec (n + 2)
    rw [Nat.zero_or, replicate_set_last]
    simp [padBufSpec]

/-- The spec-side padding length is `136 − (n mod 136)` bytes. -/
lemma padLenOf_eq (n : Nat) : padLenOf n = 136 - n % 136 := by
  unfold padLenOf
  split
  · omega
  · omega

/-- `pad` at rate 1088 appends exactly the spec-side padding buffer. -/
lemma pad_eq (m : List Nat) : pad m 1088 = m ++ padBufSpec (padLenOf m.length) := by
  have h0 : ¬(1088 - (m.length * 8) % 1088 = 0) := by omega
  have hP : padLenOf m.length = (1088 - m.length * 8 % 1088 + 7) / 8 := by
    rw [padLenOf_eq]; omega
  simp only [pad, if_neg h0, hP]
  rw [pad_buffer_eq]
  omega

/-- The spec-side padding buffer has length `padLen`. -/
lemma padBufSpec_length (k : Nat) (hk : 1 ≤ k) : (padBufSpec k).length = k := by
  unfold padBufSpec
  split
  · simp; omega
  · simp; omega

/-- The padded message always grows to the next multiple of 136 bytes. -/
lemma pad_length (m : List Nat) :
    (pad m 1088).length = m.length + (136 - m.length % 136) := by
  rw [pad_eq, List.length_append, padBufSpec_length]
  · rw [padLenOf_eq]
  · rw [padLenOf_eq]; omega

/-- C3: for every message, `pad(m, 1088)` is `m` followed by a buffer of
`padLen = ⌈remaining/8⌉` bytes, where `remaining = 1088 − (8·len mod 1088)`
(replaced by 1088 when 0), whose first byte is `0x06` and whose last byte has
`0x80` OR-ed in (`0x86` when `padLen = 1`); the result's bit length is an exact
multiple of 1088, and the 135-, 136- and 137-byte messages pad to 136, 272 and
272 bytes respectively. -/
theorem pad_spec_conformance (m : List Nat) :
    pad m 1088 = m ++ padBufSpec (padLenOf m.length)
    ∧ (8 * (pad m 1088).length) % 1088 = 0
    ∧ (m.length = 135 → (pad m 1088).length = 136)
    ∧ (m.length = 136 → (pad m 1088).length = 272)
    ∧ (m.length = 137 → (pad m 1088).length = 272) := by
  have hlen := pad_length m
  exact ⟨pad_eq m, by omega, fun h => by omega, fun h => by omega, fun h => by omega⟩

/-- C3 witness: the three boundary cases of `pad_spec_conformance` read off at
concrete all-zero messages of lengths 135, 136 and 137. -/
theorem pad_spec_conformance_inst :
    (pad (List.replicate 135 0) 1088).length = 136
    ∧ (pad (List.replicate 136 0) 1088).length = 272
    ∧ (pad (List.replicate 137 0) 1088).length = 272 :=
  ⟨(pad_spec_conformance (List.replicate 135 0)).2.2.1 (by simp),
   (pad_spec_conformance (List.replicate 136 0)).2.2.2.1 (by simp),
   (pad_spec_conformance (List.replicate 137 0)).2.2.2.2 (by simp)⟩

/-- When a full block fits at offset `i`, the source's guarded inner loop
equals the guard-free spec-side XOR of the 136-byte chunk at `i`. -/
lemma xorBlockAt_full (p : List Nat) (i : Nat) (s : KState) (h : i + 136 ≤ p.length) :
    xorBlockAt p i s = xorBlockFull ((p.drop i).take 136) s := by
  unfold xorBlockAt xorBlockFull
  apply List.foldl_ext
  intro t j hj
  have hj' : j < 136 := List.mem_range.mp hj
  have hij : i + j < p.length := by omega
  rw [if_pos hij]
  unfold xorByte
  have hget : ((p.drop i).take 136).getD j 0 = p.getD (i + j) 0 := by
    rw [List.getD_eq_getElem?_getD, List.getD_eq_getElem?_getD, List.getElem?_take,
      if_pos hj', List.getElem?_drop]
  rw [hget, Nat.mul_comm (j % 8) 8]

/-- The absorb loop, started at offset `i` with `n` full blocks available,
equals the spec-side fold over the `n` consecutive chunks from `i` on. -/
lemma absorbAux_spec (n : Nat) :
    ∀ (p : List Nat) (i : Nat) (s : KState), i + 136 * n ≤ p.length →
      absorbAux p i n s = absorbSpec (chunks136 (p.drop i) n) s := by
  induction n with
  | zero => intro p i s _; rfl
  | succ k ih =>
    intro p i s h
    show absorbAux p (i + 136) k (keccakF1600 (xorBlockAt p i s))
      = absorbSpec (chunks136 (p.drop i) (k + 1)) s
    rw [xorBlockAt_full p i s (by omega)]
    have hstep :
        absorbSpec (chunks136 (p.drop i) (k + 1)) s
          = absorbSpec (chunks136 ((p.drop i).drop 136) k)
              (keccakF1600 (xorBlockFull ((p.drop i).take 136) s)) := rfl
    rw [hstep, List.drop_drop]
    exact ih p (i + 136) _ (by omega)

/-- C4: the padded message's length is a multiple of 136 (no partial block
arises), and the absorption loop of `sha3_256` — starting at offset 0 with
`⌈len/136⌉` iterations — processes exactly the consecutive full 136-byte
blocks, XORing each byte `j` of a block as `byte << (8·(j mod 8))` into the
lane at `((j/8) mod 5, (j/8) div 5)` and running `keccakF1600` exactly once
after every block. -/
theorem absorb_full_blocks_conformance (m : List Nat) :
    (pad m 1088).length % 136 = 0
    ∧ absorbAux (pad m 1088) 0 (((pad m 1088).length + 135) / 136) state0
      = absorbSpec (chunks136 (pad m 1088) ((pad m 1088).length / 136)) state0 := by
  have hlen := pad_length m
  constructor
  · omega
  · have hn : ((pad m 1088).length + 135) / 136 = (pad m 1088).length / 136 := by omega
    rw [hn]
    have h := absorbAux_spec ((pad m 1088).length / 136) (pad m 1088) 0 state0 (by omega)
    rw [List.drop_zero] at h
    exact h

/-- The squeeze loop started fresh on any state returns exactly the 32 bytes
described by `squeezeSpec`, proved by unrolling its four full-lane iterations. -/
lemma squeezeAux_closed (S : KState) : squeezeAux S 0 0 32 = squeezeSpec S := by
  have e0 : squeezeAux S 0 0 32
      = laneBytes (KState.get S 0 0) 0 ++ squeezeAux S 1 8 31 := rfl
  have e1 : squeezeAux S 1 8 31
      = laneBytes (KState.get S 1 0) 8 ++ squeezeAux S 2 16 30 := rfl
  have e2 : squeezeAux S 2 16 30
      = laneBytes (KState.get S 2 0) 16 ++ squeezeAux S 3 24 29 := rfl
  have e3 : squeezeAux S 3 24 29
      = laneBytes (KState.get S 3 0) 24 ++ squeezeAux S 4 32 28 := rfl
  have e4 : squeezeAux S 4 32 28 = [] := rfl
  rw [e0, e1, e2, e3, e4]
  rfl

/-- C5: for every message (the empty one included) `sha3_256` returns exactly
32 bytes, read from the state left by the last absorb-round permutation with
no further permutation call: byte `k` is byte `k mod 8` (least significant
first) of the lane at `((k/8) mod 5, (k/8) div 5)`, lanes visited in ascending
`wordIndex` order. -/
theorem squeeze_spec_conformance (m : List Nat) :
    (sha3_256 m).length = 32
    ∧ sha3_256 m =
        squeezeSpec (absorbAux (pad m 1088) 0 (((pad m 1088).length + 135) / 136) state0) := by
  have h2 : sha3_256 m =
      squeezeSpec (absorbAux (pad m 1088) 0 (((pad m 1088).length + 135) / 136) state0) :=
    squeezeAux_closed _
  refine ⟨?_, h2⟩
  rw [h2]
  simp [squeezeSpec]
